import Mathlib

/-!
# Verification of the nickel.rs routing and error-binding core

This file embeds the two source files of the repository:

* `src/router.rs` — `RouteRegexFactory::create_regex`, `Router::add_route`,
  `Router::match_route`;
* `src/nickel_error.rs` — `NickelError::new`, `NickelError::without_response`,
  `NickelError::end` and the three `From` conversions.

The route matcher is built on the external `regex` crate.  We embed the
fragment of that crate's pattern language which route compilation can
produce: literals, escaped punctuation, `.`, character classes, the
quantifiers `*` `+` `?` (with a lazy `?` marker), alternation `|`, and the
anchors `^` `$`.  Group syntax `(`/`)`, counted repetitions and alphanumeric
escape classes (`\d`, …) are outside the embedded fragment: the embedded
pattern parser rejects them, and no theorem below depends on a pattern that
uses them.  Matching is positional: `^` matches only at the start of the
haystack, `$` only at its end, and `.` matches any character except a
newline, as in the `regex` crate's default (non-multiline) mode.
-/

namespace Nickel

/-- One item of a character class: a single character or an inclusive range. -/
inductive ClItem where
  | ch (c : Char)
  | range (lo hi : Char)
deriving DecidableEq

/-- Abstract syntax of the embedded fragment of the `regex` crate patterns. -/
inductive Regex where
  | eps
  | lit (c : Char)
  | anyChar
  | cls (neg : Bool) (items : List ClItem)
  | bol
  | eol
  | seq (r1 r2 : Regex)
  | alt (r1 r2 : Regex)
  | star (r : Regex)
deriving DecidableEq

/-- Does a class item accept a character? -/
def ClItem.test : ClItem → Char → Bool
  | .ch c, d => d = c
  | .range lo hi, d => lo ≤ d && d ≤ hi

/-- Does a (possibly negated) character class accept a character? -/
def inClass (neg : Bool) (items : List ClItem) (d : Char) : Bool :=
  neg != items.any (fun it => it.test d)

/-- Iterate a one-step matcher for `star`: every repetition must consume at
least one character, which bounds the number of useful repetitions by the
length of the remaining input. -/
def starIter (f : List Char → List (List Char)) : Nat → List Char → List (List Char)
  | 0, s => [s]
  | k+1, s =>
    s :: (((f s).filter (fun t => t.length < s.length)).map (fun t => starIter f k t)).flatten

/-- All suffixes of `s` that remain after the regex matches some front part of
`s`.  The parameter `n` is the length of the whole haystack, so that the
anchor `^` recognises the start of the haystack (`s.length = n`) and `$` its
end, exactly as in the `regex` crate's default mode. -/
def matchEnds (n : Nat) : Regex → List Char → List (List Char)
  | .eps, s => [s]
  | .lit c, s =>
    match s with
    | [] => []
    | d :: t => if d = c then [t] else []
  | .anyChar, s =>
    match s with
    | [] => []
    | d :: t => if d = '\n' then [] else [t]
  | .cls neg items, s =>
    match s with
    | [] => []
    | d :: t => if inClass neg items d then [t] else []
  | .bol, s => if s.length = n then [s] else []
  | .eol, s => if s.isEmpty then [s] else []
  | .seq r1 r2, s => ((matchEnds n r1 s).map (fun t => matchEnds n r2 t)).flatten
  | .alt r1 r2, s => matchEnds n r1 s ++ matchEnds n r2 s
  | .star r, s => starIter (fun t => matchEnds n r t) s.length s

/-- `Regex::is_match`: unanchored search — the pattern may match any span of
the haystack, so we try every start position (every suffix). -/
def Regex.is_match (re : Regex) (s : List Char) : Bool :=
  s.tails.any (fun suf => !(matchEnds s.length re suf).isEmpty)

/-- The pattern matches the whole haystack (span from position 0 to the end). -/
def Regex.full_match (re : Regex) (s : List Char) : Bool :=
  (matchEnds s.length re s).any (fun t => t.isEmpty)

/-! ## Pattern parser (embedded fragment of `Regex::new`) -/

/-- Tokens of the pattern surface syntax. -/
inductive Tok where
  | lit (c : Char)
  | dot
  | bol
  | eol
  | cls (neg : Bool) (items : List ClItem)
  | star
  | plus
  | opt
  | bar
deriving DecidableEq

/-- Tokenizer mode: normal scanning, or inside a character class body with the
items collected so far (in reverse). -/
inductive TkMode where
  | norm
  | cbody (neg : Bool) (acc : List ClItem)

/-- Tokenize a pattern string.  `none` models a `Regex::new` error (unclosed
class, dangling escape, invalid range, or a construct outside the embedded
fragment). -/
def tokenize : TkMode → List Char → Option (List Tok)
  | .norm, [] => some []
  | .norm, '\\' :: d :: rest =>
    if d.isAlphanum then none
    else (tokenize .norm rest).map (fun ts => .lit d :: ts)
  | .norm, ['\\'] => none
  | .norm, '[' :: '^' :: rest => tokenize (.cbody true []) rest
  | .norm, '[' :: rest => tokenize (.cbody false []) rest
  | .norm, c :: rest =>
    if c = '^' then (tokenize .norm rest).map (fun ts => .bol :: ts)
    else if c = '$' then (tokenize .norm rest).map (fun ts => .eol :: ts)
    else if c = '.' then (tokenize .norm rest).map (fun ts => .dot :: ts)
    else if c = '*' then (tokenize .norm rest).map (fun ts => .star :: ts)
    else if c = '+' then (tokenize .norm rest).map (fun ts => .plus :: ts)
    else if c = '?' then (tokenize .norm rest).map (fun ts => .opt :: ts)
    else if c = '|' then (tokenize .norm rest).map (fun ts => .bar :: ts)
    else if c = '(' || c = ')' || c = '\x7b' || c = '\x7d' then none
    else (tokenize .norm rest).map (fun ts => .lit c :: ts)
  | .cbody _ _, [] => none
  | .cbody neg acc, ']' :: rest =>
    if acc.isEmpty then none
    else (tokenize .norm rest).map (fun ts => .cls neg acc.reverse :: ts)
  | .cbody neg acc, '\\' :: d :: rest =>
    if d.isAlphanum then none
    else tokenize (.cbody neg (.ch d :: acc)) rest
  | .cbody _ _, ['\\'] => none
  | .cbody neg acc, c :: '-' :: ']' :: rest =>
    tokenize (.cbody neg (.ch '-' :: .ch c :: acc)) (']' :: rest)
  | .cbody neg acc, c :: '-' :: d :: rest =>
    if c ≤ d then tokenize (.cbody neg (.range c d :: acc)) rest else none
  | .cbody neg acc, c :: rest => tokenize (.cbody neg (.ch c :: acc)) rest

/-- One parsed factor of a concatenation: its regex, whether it is a zero-width
anchor (which cannot be quantified), and its quantification state
(0 = bare atom, 1 = quantified, 2 = quantified with a lazy marker). -/
structure Factor where
  re : Regex
  anchor : Bool
  quant : Nat
deriving DecidableEq

/-- Right-nested concatenation of a list of regexes. -/
def concatOf : List Regex → Regex
  | [] => .eps
  | [r] => r
  | r :: rs => .seq r (concatOf rs)

/-- Right-nested alternation of a list of regexes. -/
def altOf : List Regex → Regex
  | [] => .eps
  | [r] => r
  | r :: rs => .alt r (altOf rs)

/-- Process one non-alternation token against the current (reversed) factor
list.  Quantifying an anchor, quantifying an already-quantified factor (other
than one lazy `?` marker) or quantifying nothing is a pattern error. -/
def stepTok : Tok → List Factor → Option (List Factor)
  | .lit c, cur => some (⟨.lit c, false, 0⟩ :: cur)
  | .dot, cur => some (⟨.anyChar, false, 0⟩ :: cur)
  | .bol, cur => some (⟨.bol, true, 0⟩ :: cur)
  | .eol, cur => some (⟨.eol, true, 0⟩ :: cur)
  | .cls n its, cur => some (⟨.cls n its, false, 0⟩ :: cur)
  | .star, [] => none
  | .star, f :: cur =>
    if f.anchor || f.quant != 0 then none else some (⟨.star f.re, false, 1⟩ :: cur)
  | .plus, [] => none
  | .plus, f :: cur =>
    if f.anchor || f.quant != 0 then none
    else some (⟨.seq f.re (.star f.re), false, 1⟩ :: cur)
  | .opt, [] => none
  | .opt, f :: cur =>
    if f.anchor then none
    else if f.quant = 0 then some (⟨.alt f.re .eps, false, 1⟩ :: cur)
    else if f.quant = 1 then some (⟨f.re, false, 2⟩ :: cur)
    else none
  | .bar, _ => none

/-- The regex of one alternation branch, from its reversed factor list. -/
def branchRegex (cur : List Factor) : Regex :=
  concatOf (cur.reverse.map (fun f => f.re))

/-- Assemble the token stream into a regex.  `alts` holds the completed
alternation branches (reversed), `cur` the factors of the current branch
(reversed). -/
def assembleGo : List Tok → List (List Factor) → List Factor → Option Regex
  | [], alts, cur => some (altOf (((cur :: alts).reverse).map branchRegex))
  | .bar :: ts, alts, cur => assembleGo ts (cur :: alts) []
  | t :: ts, alts, cur => (stepTok t cur).bind (fun cur2 => assembleGo ts alts cur2)

/-- `Regex::new` on the embedded fragment: `none` models a pattern error. -/
def parseRegex (s : List Char) : Option Regex :=
  (tokenize .norm s).bind (fun ts => assembleGo ts [] [])

/-! ## `RouteRegexFactory::create_regex` (src/router.rs lines 24–44) -/

/-- `VALID_SEQUENCE` from `create_regex`: the replacement text substituted for
each placeholder.  Note the leading `.`. -/
def VALID_SEQUENCE : List Char := ".[a-zA-Z0-9_-]*".data

/-- `REGEX_START` from `create_regex`. -/
def REGEX_START : List Char := "^".data

/-- `REGEX_END` from `create_regex`. -/
def REGEX_END : List Char := "$".data

/-- The placeholder-recognition pattern `":[a-zA-Z0-9_-]*"` from `create_regex`. -/
def PLACEHOLDER_PATTERN : List Char := ":[a-zA-Z0-9_-]*".data

/-- The characters of the placeholder pattern's character class
`[a-zA-Z0-9_-]`. -/
def classChar (c : Char) : Bool :=
  ('a' ≤ c && c ≤ 'z') || ('A' ≤ c && c ≤ 'Z') || ('0' ≤ c && c ≤ '9') || c = '_' || c = '-'

/-- `regex.replace_all(route_path, VALID_SEQUENCE)` for the placeholder
pattern `:[a-zA-Z0-9_-]*`: scan left to right; every occurrence of `:`
followed by a maximal (greedy, possibly empty) run of class characters is the
leftmost next match and is replaced by `VALID_SEQUENCE`; all other characters
are copied.  `inPh = true` while inside the class-character run of a match
being consumed. -/
def replaceRun (inPh : Bool) : List Char → List Char
  | [] => []
  | c :: rest =>
    if inPh && classChar c then replaceRun true rest
    else if c = ':' then VALID_SEQUENCE ++ replaceRun true rest
    else c :: replaceRun false rest

/-- The pattern string built by `create_regex`:
`"^" + replace_all(route_path) + "$"`. -/
def create_regex_src (route_path : List Char) : List Char :=
  REGEX_START ++ replaceRun false route_path ++ REGEX_END

/-- `RouteRegexFactory::create_regex`.  The source has two failure branches
(`fail!`): one if the placeholder pattern itself does not compile, one if the
assembled pattern does not compile; both are modelled by `none`. -/
def create_regex (route_path : String) : Option Regex :=
  match parseRegex PLACEHOLDER_PATTERN with
  | none => none
  | some _ => parseRegex (create_regex_src route_path.data)

/-! ## `Router` (src/router.rs lines 47–75) -/

/-- A `Route`: path template, opaque handler, compiled matcher.  The handler
type is opaque to the router, hence a type parameter. -/
structure Route (H : Type) where
  path : String
  handler : H
  matcher : Regex

/-- The `Router` holds the registered routes in insertion order. -/
structure Router (H : Type) where
  routes : List (Route H)

/-- `Router::new`. -/
def Router.new {H : Type} : Router H := ⟨[]⟩

/-- `Router::add_route`: compiles the path and pushes the route.  The panic
inside `create_regex` is modelled by `none`. -/
def Router.add_route {H : Type} (self : Router H) (path : String) (handler : H) :
    Option (Router H) :=
  (create_regex path).map (fun m => ⟨self.routes ++ [⟨path, handler, m⟩]⟩)

/-- `Router::match_route`: first registered route whose matcher matches. -/
def Router.match_route {H : Type} (self : Router H) (path : String) : Option (Route H) :=
  self.routes.find? (fun item => item.matcher.is_match path.data)

/-! ## `NickelError` (src/nickel_error.rs)

The `Response` type lives in `response.rs`, which is not among the sources
under review; it is modelled from the spec's description of the
response-stream abstraction. -/

/-- HTTP status codes (external `hyper::status::StatusCode`); only the
variants the sources mention are distinguished. -/
inductive StatusCode where
  | InternalServerError
  | BadRequest
  | NotFound
  | Other (code : Nat)
deriving DecidableEq

/-- Lifecycle states of a response stream (external `hyper::net::{Fresh,
Streaming}`): `Fresh` = unsent, `Streaming` = headers committed. -/
inductive RState where
  | Fresh
  | Streaming
deriving DecidableEq

/-- Modelled from the spec: the response-stream abstraction of `response.rs`
(not among the sources under review).  A response exposes `setStatus`, a
Fresh→Started transition that may fail with a transport-level error, and an
end/flush operation that may fail with an I/O error.  The outcomes of the two
transport operations are data of the response (they are decided by the
external transport, not by this core): `startOutcome = none` means the
transition succeeds, `some d` that it fails with diagnostic `d`;
`endOutcome` is the result of terminating the stream. -/
structure Response (s : RState) where
  status : StatusCode
  startOutcome : Option String
  endOutcome : Except String Unit

/-- Modelled from the spec: `setStatus(code)` on a fresh response. -/
def Response.set (self : Response .Fresh) (code : StatusCode) : Response .Fresh :=
  { self with status := code }

/-- `NickelError`: the error/response binding — an optional streaming
response plus a diagnostic message (`Cow<'static, str>` is modelled as
`String`). -/
structure NickelError where
  stream : Option (Response .Streaming)
  message : String

/-- Modelled from the spec: the Fresh→Started transition (`Response::start`).
On success the stream keeps its status and transport behaviour; on failure
the result is the binding built from the transport failure's own diagnostic. -/
def Response.start (self : Response .Fresh) :
    Except NickelError (Response .Streaming) :=
  match self.startOutcome with
  | none => .ok ⟨self.status, self.startOutcome, self.endOutcome⟩
  | some d => .error ⟨none, d⟩

/-- Modelled from the spec: terminating (flush/close) a streaming response;
the outcome is decided by the external transport. -/
def Response.«end» (self : Response .Streaming) : Except String Unit :=
  self.endOutcome

/-- `NickelError::new` (src/nickel_error.rs lines 34–48). -/
def NickelError.new (stream : Response .Fresh) (message : String)
    (status_code : StatusCode) : NickelError :=
  let stream2 := stream.set status_code
  match stream2.start with
  | .ok st => { stream := some st, message := message }
  | .error e => e

/-- `NickelError::without_response` (lines 59–65; Rust marks it `unsafe`). -/
def NickelError.without_response (message : String) : NickelError :=
  { stream := none, message := message }

/-- `NickelError::end` (lines 67–69): `self.stream.map(|s| s.end())`. -/
def NickelError.«end» (self : NickelError) : Option (Except String Unit) :=
  self.stream.map (fun s => s.«end»)

/-- A boxed `Error` trait object (external `std::error::Error`): all the
sources use of it is its textual `description()`. -/
structure BoxedError where
  description : String

/-- `impl From<(Response, (StatusCode, T))> for NickelError` (lines 72–78). -/
def NickelError.from_status_err (res : Response .Fresh) (errorcode : StatusCode)
    (err : BoxedError) : NickelError :=
  NickelError.new res err.description errorcode

/-- `impl From<(Response, String)> for NickelError` (lines 80–84). -/
def NickelError.from_string (res : Response .Fresh) (msg : String) : NickelError :=
  NickelError.new res msg .InternalServerError

/-- `impl From<(Response, StatusCode)> for NickelError` (lines 86–90). -/
def NickelError.from_status (res : Response .Fresh) (code : StatusCode) : NickelError :=
  NickelError.new res "" code

/-! ## Derived notions used by the statements below -/

/-- The syntactic property of ending in the end-of-text anchor: the last
factor of a concatenation chain is `$`. -/
def endsEol : Regex → Bool
  | .eol => true
  | .seq _ r2 => endsEol r2
  | _ => false

/-- The parsed items of the class `[a-zA-Z0-9_-]` appearing in
`VALID_SEQUENCE`. -/
def CLS_ITEMS : List ClItem :=
  [.range 'a' 'z', .range 'A' 'Z', .range '0' '9', .ch '_', .ch '-']

/-- A character that `create_regex` copies into the pattern and that the
pattern engine in turn treats as a literal: anything except the pattern
metacharacters and the placeholder marker `:`. -/
def litChar (c : Char) : Bool :=
  !(c = '^' || c = '$' || c = '.' || c = '*' || c = '+' || c = '?' || c = '|' ||
    c = '\\' || c = '[' || c = ']' || c = '(' || c = ')' || c = '\x7b' || c = '\x7d' ||
    c = ':')

/-- The route-template alphabet for which compilation is analysed below:
literal-safe characters, the dot, and the placeholder marker. -/
def tplChar (c : Char) : Bool :=
  litChar c || c = '.' || c = ':'

/-- The token stream produced by tokenizing the compiled form of a template
over the route-template alphabet (mirrors `replaceRun`). -/
def tplToks (ph : Bool) : List Char → List Tok
  | [] => []
  | c :: rest =>
    if ph && classChar c then tplToks true rest
    else if c = ':' then .dot :: .cls false CLS_ITEMS :: .star :: tplToks true rest
    else if c = '.' then .dot :: tplToks false rest
    else .lit c :: tplToks false rest

/-- Abbreviation for an unquantified non-anchor factor. -/
def plainF (r : Regex) : Factor := ⟨r, false, 0⟩

/-- The reversed factor stack produced by assembling the tokens of a template
over the route-template alphabet (mirrors `replaceRun`). -/
def tplFactsRev (ph : Bool) : List Char → List Factor
  | [] => []
  | c :: rest =>
    if ph && classChar c then tplFactsRev true rest
    else if c = ':' then
      tplFactsRev true rest ++ [⟨.star (.cls false CLS_ITEMS), false, 1⟩, plainF .anyChar]
    else if c = '.' then tplFactsRev false rest ++ [plainF .anyChar]
    else tplFactsRev false rest ++ [plainF (.lit c)]

/-- The concatenation factors, in source order, of the matcher compiled from
a template over the route-template alphabet. -/
def tplFactors (ph : Bool) (tpl : List Char) : List Regex :=
  ((tplFactsRev ph tpl).reverse).map (fun f => f.re)

end Nickel

namespace Nickel

/-! ## Lemmas about `replace_all` of the placeholder pattern -/

/-- A string without `:` is copied verbatim by the placeholder replacement. -/
theorem replaceRun_false_of_no_colon (s : List Char) (h : ':' ∉ s) :
    replaceRun false s = s := by
  induction s with
  | nil => rfl
  | cons c rest ih =>
    have hc : ¬(c = ':') := by
      intro hc
      exact h (hc ▸ List.mem_cons_self c rest)
    have hrest : ':' ∉ rest := fun hm => h (List.mem_cons_of_mem c hm)
    simp [replaceRun, hc, ih hrest]

/-- Inside a placeholder run, a maximal run of class characters is consumed. -/
theorem replaceRun_true_drop (name rest : List Char)
    (h : ∀ c ∈ name, classChar c = true) :
    replaceRun true (name ++ rest) = replaceRun true rest := by
  induction name with
  | nil => rfl
  | cons c name' ih =>
    have hc : classChar c = true := h c (List.mem_cons_self c name')
    simp [replaceRun, hc, ih (fun d hd => h d (List.mem_cons_of_mem c hd))]

/-- When the next character does not belong to the placeholder class, being
inside or outside a placeholder run makes no difference. -/
theorem replaceRun_true_eq_false (s : List Char)
    (h : ∀ c, s.head? = some c → classChar c = false) :
    replaceRun true s = replaceRun false s := by
  cases s with
  | nil => rfl
  | cons c rest =>
    have hc : classChar c = false := h c rfl
    simp [replaceRun, hc]

/-- Splitting the replacement at the first `:`. -/
theorem replaceRun_false_split (pre post : List Char) (hpre : ':' ∉ pre) :
    replaceRun false (pre ++ ':' :: post) =
      pre ++ VALID_SEQUENCE ++ replaceRun true post := by
  induction pre with
  | nil => simp [replaceRun]
  | cons a pre' ih =>
    have ha : ¬(a = ':') := by
      intro hc
      exact hpre (hc ▸ List.mem_cons_self a pre')
    have hpre' : ':' ∉ pre' := fun hm => hpre (List.mem_cons_of_mem a hm)
    simp [replaceRun, ha, ih hpre']

/-! ## Lemmas about `List.find?` for route resolution -/

/-- `find?` returns the first element satisfying the test when everything
before it fails the test. -/
theorem find?_of_front_false {α : Type} (p : α → Bool) (pre post : List α) (x : α)
    (hpre : ∀ y ∈ pre, p y = false) (hx : p x = true) :
    List.find? p (pre ++ x :: post) = some x := by
  induction pre with
  | nil => rw [List.nil_append, List.find?_cons_of_pos _ hx]
  | cons a l ih =>
    have ha : p a = false := hpre a (List.mem_cons_self a l)
    rw [List.cons_append, List.find?_cons_of_neg _ (by simp [ha])]
    exact ih (fun y hy => hpre y (List.mem_cons_of_mem a hy))

/-! ## Structure of the compiled matcher for templates over the
route-template alphabet -/

/-- Tokenizing after a `.` emits a `dot` token. -/
theorem tokenize_dot_step (Y : List Char) :
    tokenize .norm ('.' :: Y) = (tokenize .norm Y).map (fun ts => .dot :: ts) := rfl

/-- Tokenizing after a `^` emits a `bol` token. -/
theorem tokenize_caret_step (Y : List Char) :
    tokenize .norm ('^' :: Y) = (tokenize .norm Y).map (fun ts => .bol :: ts) := rfl

/-- Tokenizing the wildcard replacement `.[a-zA-Z0-9_-]*` emits a dot, the
class, and a star. -/
theorem tokenize_vs (X : List Char) :
    tokenize .norm (VALID_SEQUENCE ++ X) =
      (tokenize .norm X).map (fun ts => .dot :: .cls false CLS_ITEMS :: .star :: ts) := by
  cases h : tokenize .norm X with
  | none => simp [VALID_SEQUENCE, CLS_ITEMS, tokenize, h]
  | some ts => simp [VALID_SEQUENCE, CLS_ITEMS, tokenize, h]

/-- Tokenizing a literal-safe character emits a literal token. -/
theorem tokenize_lit_step (c : Char) (Y : List Char) (h : litChar c = true) :
    tokenize .norm (c :: Y) = (tokenize .norm Y).map (fun ts => .lit c :: ts) := by
  simp only [litChar, Bool.not_eq_eq_eq_not, Bool.not_true, Bool.or_eq_false_iff,
    decide_eq_false_iff_not] at h
  obtain ⟨⟨⟨⟨⟨⟨⟨⟨⟨⟨⟨⟨⟨⟨h1, h2⟩, h3⟩, h4⟩, h5⟩, h6⟩, h7⟩, h8⟩, h9⟩, h10⟩, h11⟩,
    h12⟩, h13⟩, h14⟩, h15⟩ := h
  rw [tokenize.eq_def]
  simp [h1, h2, h3, h4, h5, h6, h7, h8, h9, h10, h11, h12, h13, h14, h15]

/-- Unfolding equation for `replaceRun` on a cons cell. -/
theorem replaceRun_cons (ph : Bool) (c : Char) (rest : List Char) :
    replaceRun ph (c :: rest) =
      if ph && classChar c then replaceRun true rest
      else if c = ':' then VALID_SEQUENCE ++ replaceRun true rest
      else c :: replaceRun false rest := rfl

/-- Unfolding equation for `tplToks` on a cons cell. -/
theorem tplToks_cons (ph : Bool) (c : Char) (rest : List Char) :
    tplToks ph (c :: rest) =
      if ph && classChar c then tplToks true rest
      else if c = ':' then .dot :: .cls false CLS_ITEMS :: .star :: tplToks true rest
      else if c = '.' then .dot :: tplToks false rest
      else .lit c :: tplToks false rest := rfl

/-- Unfolding equation for `tplFactsRev` on a cons cell. -/
theorem tplFactsRev_cons (ph : Bool) (c : Char) (rest : List Char) :
    tplFactsRev ph (c :: rest) =
      if ph && classChar c then tplFactsRev true rest
      else if c = ':' then
        tplFactsRev true rest ++ [⟨.star (.cls false CLS_ITEMS), false, 1⟩, plainF .anyChar]
      else if c = '.' then tplFactsRev false rest ++ [plainF .anyChar]
      else tplFactsRev false rest ++ [plainF (.lit c)] := rfl

/-- Tokenizing the compiled body of a template over the route-template
alphabet, followed by the closing anchor, yields the template's tokens
followed by the `eol` token. -/
theorem tokenize_replaceRun (tpl : List Char) :
    ∀ ph : Bool, (∀ c ∈ tpl, tplChar c = true) →
    tokenize .norm (replaceRun ph tpl ++ ['$']) = some (tplToks ph tpl ++ [.eol]) := by
  induction tpl with
  | nil => intro ph _; rfl
  | cons c rest ih =>
    intro ph h
    have hrest : ∀ c' ∈ rest, tplChar c' = true :=
      fun c' hc' => h c' (List.mem_cons_of_mem c hc')
    have hc : tplChar c = true := h c (List.mem_cons_self c rest)
    by_cases hphc : (ph && classChar c) = true
    · simp only [replaceRun_cons, tplToks_cons, hphc, if_true]
      exact ih true hrest
    · have hphc' : (ph && classChar c) = false := Bool.eq_false_iff.mpr hphc
      by_cases hcolon : c = ':'
      · subst hcolon
        simp only [replaceRun_cons, tplToks_cons, hphc', Bool.false_eq_true, if_false,
          if_true, List.append_assoc]
        rw [tokenize_vs, ih true hrest]
        rfl
      · by_cases hdot : c = '.'
        · subst hdot
          simp only [replaceRun_cons, tplToks_cons, hphc', Bool.false_eq_true, if_false,
            if_neg hcolon, if_true, List.cons_append]
          rw [tokenize_dot_step, ih false hrest]
          rfl
        · have hlit : litChar c = true := by
            simp only [tplChar, Bool.or_eq_true, decide_eq_true_eq] at hc
            rcases hc with (h' | h') | h'
            · exact h'
            · exact absurd h' hdot
            · exact absurd h' hcolon
          simp only [replaceRun_cons, tplToks_cons, hphc', Bool.false_eq_true, if_false,
            if_neg hcolon, if_neg hdot, List.cons_append]
          rw [tokenize_lit_step c _ hlit, ih false hrest]
          rfl

/-- Assembling the tokens of a template pushes exactly the template's factor
stack; the continuation, surrounding alternation state and factor stack are
arbitrary. -/
theorem assembleGo_tplToks (tpl : List Char) :
    ∀ (ph : Bool) (rest0 : List Tok) (alts : List (List Factor)) (cur : List Factor),
    assembleGo (tplToks ph tpl ++ rest0) alts cur =
      assembleGo rest0 alts (tplFactsRev ph tpl ++ cur) := by
  induction tpl with
  | nil => intro ph rest0 alts cur; rfl
  | cons c rest ih =>
    intro ph rest0 alts cur
    by_cases hphc : (ph && classChar c) = true
    · simp only [tplToks_cons, tplFactsRev_cons, hphc, if_true]
      exact ih true rest0 alts cur
    · have hphc' : (ph && classChar c) = false := Bool.eq_false_iff.mpr hphc
      by_cases hcolon : c = ':'
      · subst hcolon
        simp only [tplToks_cons, tplFactsRev_cons, hphc', Bool.false_eq_true, if_false,
          if_true, List.cons_append, List.append_assoc]
        rw [show assembleGo (Tok.dot :: Tok.cls false CLS_ITEMS :: Tok.star ::
              (tplToks true rest ++ rest0)) alts cur =
            assembleGo (tplToks true rest ++ rest0) alts
              (⟨.star (.cls false CLS_ITEMS), false, 1⟩ :: plainF .anyChar :: cur) from rfl]
        rw [ih true rest0 alts _]
        simp
      · by_cases hdot : c = '.'
        · subst hdot
          simp only [tplToks_cons, tplFactsRev_cons, hphc', Bool.false_eq_true, if_false,
            if_neg hcolon, if_true, List.cons_append]
          rw [show assembleGo (Tok.dot :: (tplToks false rest ++ rest0)) alts cur =
              assembleGo (tplToks false rest ++ rest0) alts (plainF .anyChar :: cur) from rfl]
          rw [ih false rest0 alts _]
          simp
        · simp only [tplToks_cons, tplFactsRev_cons, hphc', Bool.false_eq_true, if_false,
            if_neg hcolon, if_neg hdot, List.cons_append]
          rw [show assembleGo (Tok.lit c :: (tplToks false rest ++ rest0)) alts cur =
              assembleGo (tplToks false rest ++ rest0) alts (plainF (.lit c) :: cur) from rfl]
          rw [ih false rest0 alts _]
          simp

/-- The compiled matcher of a template over the route-template alphabet: the
anchors surround the template's factors. -/
theorem create_regex_of_tplChar (tpl : String)
    (h : ∀ c ∈ tpl.data, tplChar c = true) :
    create_regex tpl =
      some (concatOf (.bol :: tplFactors false tpl.data ++ [.eol])) := by
  have hsrc : create_regex_src tpl.data =
      '^' :: (replaceRun false tpl.data ++ ['$']) := by
    simp [create_regex_src, REGEX_START, REGEX_END]
  have hunfold : create_regex tpl = parseRegex (create_regex_src tpl.data) := rfl
  rw [hunfold, hsrc]
  unfold parseRegex
  rw [tokenize_caret_step, tokenize_replaceRun tpl.data false h]
  show assembleGo (.bol :: (tplToks false tpl.data ++ [.eol])) [] [] = _
  rw [show assembleGo (Tok.bol :: (tplToks false tpl.data ++ [.eol])) [] [] =
      assembleGo (tplToks false tpl.data ++ [.eol]) [] [⟨.bol, true, 0⟩] from rfl]
  rw [assembleGo_tplToks tpl.data false [.eol] [] _]
  show some (altOf ([(⟨.eol, true, 0⟩ :: (tplFactsRev false tpl.data ++ [⟨.bol, true, 0⟩]))].map
    branchRegex)) = _
  simp [altOf, branchRegex, tplFactors, List.reverse_append, Function.comp]

/-! ## Anchoring: semantic consequences of the `^ … $` shape -/

/-- A concatenation chain ending in the `$` factor satisfies `endsEol`. -/
theorem endsEol_concatOf_append_eol (L : List Regex) :
    endsEol (concatOf (L ++ [.eol])) = true := by
  induction L with
  | nil => rfl
  | cons r L ih =>
    cases hL : L ++ [Regex.eol] with
    | nil => exact absurd hL (by simp)
    | cons x xs =>
      simp only [List.cons_append, hL, concatOf, endsEol]
      rw [← hL]
      exact ih

/-- A regex satisfying `endsEol` can only stop matching at the very end of
the haystack. -/
theorem matchEnds_endsEol (n : Nat) :
    ∀ (X : Regex), endsEol X = true → ∀ (s t : List Char), t ∈ matchEnds n X s → t = [] := by
  intro X
  induction X with
  | eol =>
    intro _ s t ht
    by_cases hs : s.isEmpty
    · rw [matchEnds, if_pos hs] at ht
      simp only [List.mem_singleton] at ht
      subst ht
      exact List.isEmpty_iff.mp hs
    · rw [matchEnds, if_neg hs] at ht
      cases ht
  | seq r1 r2 ih1 ih2 =>
    intro hE s t ht
    simp only [matchEnds, List.mem_flatten, List.mem_map] at ht
    obtain ⟨l, ⟨u, _, rfl⟩, htl⟩ := ht
    exact ih2 hE u t htl
  | eps => intro hE; simp [endsEol] at hE
  | lit c => intro hE; simp [endsEol] at hE
  | anyChar => intro hE; simp [endsEol] at hE
  | cls neg items => intro hE; simp [endsEol] at hE
  | bol => intro hE; simp [endsEol] at hE
  | alt r1 r2 ih1 ih2 => intro hE; simp [endsEol] at hE
  | star r ih => intro hE; simp [endsEol] at hE

/-- A match of `^ X` can only start at the very beginning of the haystack. -/
theorem matchEnds_seq_bol (n : Nat) (X : Regex) (s t : List Char)
    (ht : t ∈ matchEnds n (.seq .bol X) s) :
    s.length = n ∧ t ∈ matchEnds n X s := by
  simp only [matchEnds] at ht
  by_cases h : s.length = n
  · rw [if_pos h] at ht
    simp only [List.map_cons, List.map_nil, List.flatten_cons, List.flatten_nil,
      List.append_nil] at ht
    exact ⟨h, ht⟩
  · rw [if_neg h] at ht
    cases ht

/-- The only suffix of `s` of full length is `s` itself. -/
theorem eq_of_mem_tails_of_length (s suf : List Char) (h : suf ∈ s.tails)
    (hlen : suf.length = s.length) : suf = s := by
  rw [List.mem_tails] at h
  obtain ⟨pre, rfl⟩ := h
  have h0 : pre.length = 0 := by
    simp only [List.length_append] at hlen
    omega
  simp [List.length_eq_zero.mp h0]

/-- For a matcher of the anchored shape `^ … $`, unanchored search succeeds
exactly when the whole haystack matches. -/
theorem is_match_iff_full_match (X : Regex) (hE : endsEol X = true) (s : List Char) :
    Regex.is_match (.seq .bol X) s = true ↔ Regex.full_match (.seq .bol X) s = true := by
  constructor
  · intro h
    simp only [Regex.is_match, List.any_eq_true, Bool.not_eq_true'] at h
    obtain ⟨suf, hsuf, hne⟩ := h
    have hne' : matchEnds s.length (.seq .bol X) suf ≠ [] := by
      intro hempty
      rw [hempty] at hne
      simp at hne
    obtain ⟨t, ht⟩ := List.exists_mem_of_ne_nil _ hne'
    obtain ⟨hlen, _⟩ := matchEnds_seq_bol s.length X suf t ht
    have hsufs : suf = s := eq_of_mem_tails_of_length s suf hsuf hlen
    subst hsufs
    have ht0 : t = [] :=
      matchEnds_endsEol suf.length (.seq .bol X) (by simpa [endsEol] using hE) suf t ht
    subst ht0
    simp only [Regex.full_match, List.any_eq_true]
    exact ⟨[], ht, rfl⟩
  · intro h
    simp only [Regex.full_match, List.any_eq_true] at h
    obtain ⟨t, ht, hemp⟩ := h
    simp only [Regex.is_match, List.any_eq_true, Bool.not_eq_true']
    refine ⟨s, (List.mem_tails s s).mpr (List.suffix_refl s), ?_⟩
    cases hq : matchEnds s.length (.seq .bol X) s with
    | nil => rw [hq] at ht; cases ht
    | cons a l => rfl

/-! ### Regression checks against the tests in src/router.rs -/

example : (create_regex "foo/:uid/bar/:groupid").map
    (fun re => re.is_match "foo/4711/bar/5490".data) = some true := by decide

example : (create_regex "foo/:uid/bar/:groupid").map
    (fun re => re.is_match "foo/".data) = some false := by decide

example : (create_regex "/foo/:userid").map
    (fun re => re.is_match "/foo/4711".data) = some true := by decide

example : (create_regex "/bar").map
    (fun re => re.is_match "/bar/4711".data) = some false := by decide

example : (create_regex "/foo/:userid").map
    (fun re => re.is_match "/foo".data) = some false := by decide

/-! ## Literal templates compile to exact matchers -/

/-- A literal-safe character is neither the dot nor the placeholder marker. -/
theorem litChar_ne_dot_colon (c : Char) (h : litChar c = true) :
    c ≠ '.' ∧ c ≠ ':' := by
  simp only [litChar, Bool.not_eq_eq_eq_not, Bool.not_true, Bool.or_eq_false_iff,
    decide_eq_false_iff_not] at h
  exact ⟨h.1.1.1.1.1.1.1.1.1.1.1.1.2, h.2⟩

/-- Literal-safe characters belong to the route-template alphabet. -/
theorem tplChar_of_litChar (c : Char) (h : litChar c = true) : tplChar c = true := by
  simp [tplChar, h]

/-- Unfolding of `concatOf` on a cons cell with a nonempty tail. -/
theorem concatOf_cons_of_ne (r : Regex) (rs : List Regex) (h : rs ≠ []) :
    concatOf (r :: rs) = .seq r (concatOf rs) := by
  cases rs with
  | nil => exact absurd rfl h
  | cons x xs => rfl

/-- Matching a literal against a nonempty haystack. -/
theorem matchEnds_lit_cons (n : Nat) (c d : Char) (s : List Char) :
    matchEnds n (.lit c) (d :: s) = if d = c then [s] else [] := rfl

/-- Unfolding of `matchEnds` on a concatenation. -/
theorem matchEnds_seq (n : Nat) (r1 r2 : Regex) (s : List Char) :
    matchEnds n (.seq r1 r2) s =
      ((matchEnds n r1 s).map (fun t => matchEnds n r2 t)).flatten := rfl

/-- Unfolding of `matchEnds` on the start anchor. -/
theorem matchEnds_bol (n : Nat) (s : List Char) :
    matchEnds n .bol s = if s.length = n then [s] else [] := rfl

/-- The factor stack of an all-literal template is its reversed literal list. -/
theorem tplFactsRev_lit (tpl : List Char) (h : ∀ c ∈ tpl, litChar c = true) :
    tplFactsRev false tpl = tpl.reverse.map (fun c => plainF (.lit c)) := by
  induction tpl with
  | nil => rfl
  | cons c rest ih =>
    have hc := litChar_ne_dot_colon c (h c (List.mem_cons_self c rest))
    rw [tplFactsRev_cons]
    simp only [Bool.false_and, Bool.false_eq_true, if_false, if_neg hc.2, if_neg hc.1]
    rw [ih (fun d hd => h d (List.mem_cons_of_mem c hd))]
    simp

/-- The factors of an all-literal template are its literals, in order. -/
theorem tplFactors_lit (tpl : List Char) (h : ∀ c ∈ tpl, litChar c = true) :
    tplFactors false tpl = tpl.map .lit := by
  rw [tplFactors, tplFactsRev_lit tpl h]
  simp [plainF, List.map_reverse, List.map_map, Function.comp]

/-- A chain of literals closed by the end anchor matches only the literal
string itself, consuming everything. -/
theorem litChain_matchEnds (n : Nat) :
    ∀ (cs s t : List Char),
      t ∈ matchEnds n (concatOf (cs.map .lit ++ [.eol])) s → s = cs ∧ t = [] := by
  intro cs
  induction cs with
  | nil =>
    intro s t ht
    simp only [List.map_nil, List.nil_append] at ht
    rw [show concatOf [Regex.eol] = .eol from rfl] at ht
    by_cases hs : s.isEmpty
    · rw [matchEnds, if_pos hs] at ht
      simp only [List.mem_singleton] at ht
      subst ht
      exact ⟨List.isEmpty_iff.mp hs, List.isEmpty_iff.mp hs⟩
    · rw [matchEnds, if_neg hs] at ht
      cases ht
  | cons c cs ih =>
    intro s t ht
    have hne : cs.map Regex.lit ++ [Regex.eol] ≠ [] := by simp
    rw [List.map_cons, List.cons_append, concatOf_cons_of_ne _ _ hne,
      matchEnds_seq] at ht
    simp only [List.mem_flatten, List.mem_map] at ht
    obtain ⟨l, ⟨u, hu, rfl⟩, htl⟩ := ht
    cases s with
    | nil => cases hu
    | cons d s2 =>
      rw [matchEnds_lit_cons] at hu
      by_cases hdc : d = c
      · rw [if_pos hdc] at hu
        simp only [List.mem_singleton] at hu
        subst hu
        obtain ⟨hs2, hts⟩ := ih u t htl
        exact ⟨by rw [hdc, hs2], hts⟩
      · rw [if_neg hdc] at hu
        cases hu

/-- A chain of literals closed by the end anchor does match the literal
string itself. -/
theorem litChain_full (n : Nat) :
    ∀ (cs : List Char), [] ∈ matchEnds n (concatOf (cs.map .lit ++ [.eol])) cs := by
  intro cs
  induction cs with
  | nil =>
    rw [show concatOf (([] : List Char).map .lit ++ [Regex.eol]) = .eol from rfl]
    rw [show matchEnds n .eol [] = [[]] from rfl]
    exact List.mem_singleton.mpr rfl
  | cons c cs ih =>
    have hne : cs.map Regex.lit ++ [Regex.eol] ≠ [] := by simp
    rw [List.map_cons, List.cons_append, concatOf_cons_of_ne _ _ hne, matchEnds_seq]
    simp only [List.mem_flatten, List.mem_map]
    refine ⟨_, ⟨cs, ?_, rfl⟩, ih⟩
    rw [matchEnds_lit_cons]
    simp

/-! ## Claim C3: literal templates -/

/-- Counterexample to C3 as stated: literal characters are not escaped before
being embedded in the pattern, so the template `/ba.` (no placeholders)
compiles to `^/ba.$`, whose dot is a wildcard: the matcher accepts `/bar`,
which differs from the template string. -/
theorem c3_counterexample :
    (create_regex "/ba.").map (fun re => re.is_match "/bar".data) = some true ∧
    ("/bar" : String) ≠ "/ba." := by
  constructor
  · decide
  · decide

/-- Claim C3 (amended): for a template all of whose characters are
literal-safe (no placeholder marker and no pattern metacharacters such as
`.`), the compiled matcher accepts exactly the literal template string and
rejects every other path. -/
theorem c3_literal_exact_amended (tpl path : String) (re : Regex)
    (h : ∀ c ∈ tpl.data, litChar c = true)
    (hre : create_regex tpl = some re) :
    re.is_match path.data = true ↔ path = tpl := by
  have htpl : ∀ c ∈ tpl.data, tplChar c = true :=
    fun c hc => tplChar_of_litChar c (h c hc)
  rw [create_regex_of_tplChar tpl htpl] at hre
  have hre2 : re = concatOf (.bol :: tplFactors false tpl.data ++ [.eol]) :=
    (Option.some_inj.mp hre).symm
  subst hre2
  have hsh : concatOf (.bol :: tplFactors false tpl.data ++ [.eol]) =
      .seq .bol (concatOf (tpl.data.map .lit ++ [.eol])) := by
    rw [List.cons_append, tplFactors_lit tpl.data h]
    exact concatOf_cons_of_ne _ _ (by simp)
  rw [hsh, is_match_iff_full_match _ (endsEol_concatOf_append_eol _) path.data]
  constructor
  · intro hf
    simp only [Regex.full_match, List.any_eq_true] at hf
    obtain ⟨t, ht, _⟩ := hf
    obtain ⟨_, ht2⟩ := matchEnds_seq_bol _ _ _ _ ht
    obtain ⟨hs, _⟩ := litChain_matchEnds _ tpl.data path.data t ht2
    exact String.ext hs
  · intro hp
    subst hp
    simp only [Regex.full_match, List.any_eq_true]
    refine ⟨[], ?_, rfl⟩
    rw [matchEnds_seq]
    simp only [List.mem_flatten, List.mem_map]
    refine ⟨_, ⟨path.data, ?_, rfl⟩, litChain_full _ _⟩
    rw [matchEnds_bol]
    simp

/-- Witness for C3 (amended) at template `/bar` and the paths of the claim's
example: `/bar` is accepted, `/bar/4711` and `/ba` are not. -/
theorem c3_literal_exact_amended_witness :
    (((create_regex "/bar").getD .eps).is_match "/bar".data = true ↔
      ("/bar" : String) = "/bar") ∧
    (((create_regex "/bar").getD .eps).is_match "/bar/4711".data = true ↔
      ("/bar/4711" : String) = "/bar") ∧
    (((create_regex "/bar").getD .eps).is_match "/ba".data = true ↔
      ("/ba" : String) = "/bar") :=
  ⟨c3_literal_exact_amended "/bar" "/bar" ((create_regex "/bar").getD .eps)
      (by decide) (by decide),
   c3_literal_exact_amended "/bar" "/bar/4711" ((create_regex "/bar").getD .eps)
      (by decide) (by decide),
   c3_literal_exact_amended "/bar" "/ba" ((create_regex "/bar").getD .eps)
      (by decide) (by decide)⟩

/-! ## The wildcard `.[a-zA-Z0-9_-]*` substituted for placeholders -/

/-- The class `[a-zA-Z0-9_-]` accepts exactly the `classChar` characters. -/
theorem inClass_CLS (d : Char) : inClass false CLS_ITEMS d = classChar d := by
  simp [inClass, CLS_ITEMS, ClItem.test, classChar, Bool.or_assoc]

/-- Matching a class against a nonempty haystack. -/
theorem matchEnds_cls_cons (n : Nat) (neg : Bool) (items : List ClItem)
    (d : Char) (s : List Char) :
    matchEnds n (.cls neg items) (d :: s) = if inClass neg items d then [s] else [] := rfl

/-- Unfolding of `matchEnds` on a starred regex. -/
theorem matchEnds_star (n : Nat) (r : Regex) (s : List Char) :
    matchEnds n (.star r) s = starIter (fun t => matchEnds n r t) s.length s := rfl

/-- Soundness of the star iteration for the placeholder class: whatever
remains after the starred class was obtained by dropping class characters. -/
theorem starIter_cls_sound (n : Nat) :
    ∀ (k : Nat) (s t : List Char),
      t ∈ starIter (fun u => matchEnds n (.cls false CLS_ITEMS) u) k s →
      ∃ pre, s = pre ++ t ∧ pre.all classChar = true := by
  intro k
  induction k with
  | zero =>
    intro s t ht
    simp only [starIter, List.mem_singleton] at ht
    exact ⟨[], by simp [ht], rfl⟩
  | succ k ih =>
    intro s t ht
    simp only [starIter, List.mem_cons, List.mem_flatten, List.mem_map,
      List.mem_filter] at ht
    rcases ht with rfl | ⟨l, ⟨u, ⟨hu, _⟩, rfl⟩, htl⟩
    · exact ⟨[], by simp, rfl⟩
    · cases s with
      | nil => cases hu
      | cons d s2 =>
        rw [matchEnds_cls_cons] at hu
        by_cases hd : inClass false CLS_ITEMS d = true
        · rw [if_pos hd] at hu
          simp only [List.mem_singleton] at hu
          subst hu
          obtain ⟨pre, hpre, hall⟩ := ih u t htl
          refine ⟨d :: pre, by simp [hpre], ?_⟩
          rw [List.all_cons, hall, ← inClass_CLS, hd]
          rfl
        · rw [if_neg hd] at hu
          cases hu

/-- Completeness of the star iteration for the placeholder class: a haystack
of class characters can be consumed entirely. -/
theorem starIter_cls_complete (n : Nat) :
    ∀ (s : List Char), s.all classChar = true →
      [] ∈ starIter (fun u => matchEnds n (.cls false CLS_ITEMS) u) s.length s := by
  intro s
  induction s with
  | nil =>
    intro _
    simp [starIter]
  | cons c rest ih =>
    intro h
    rw [List.all_cons, Bool.and_eq_true] at h
    simp only [List.length_cons, starIter, List.mem_cons, List.mem_flatten,
      List.mem_map, List.mem_filter]
    refine Or.inr ⟨starIter (fun u => matchEnds n (.cls false CLS_ITEMS) u) rest.length rest,
      ⟨rest, ⟨?_, by simp⟩, rfl⟩, ih h.2⟩
    rw [matchEnds_cls_cons, inClass_CLS, h.1]
    simp

/-- The starred placeholder class followed by the end anchor fully consumes a
haystack exactly when the haystack consists of class characters. -/
theorem starcls_eol_mem (n : Nat) (s : List Char) :
    ([] ∈ matchEnds n (.seq (.star (.cls false CLS_ITEMS)) .eol) s) ↔
      s.all classChar = true := by
  rw [matchEnds_seq, matchEnds_star]
  simp only [List.mem_flatten, List.mem_map]
  constructor
  · rintro ⟨l, ⟨u, hu, rfl⟩, hmem⟩
    have hu0 : u = [] := by
      by_cases h : u.isEmpty
      · exact List.isEmpty_iff.mp h
      · rw [show matchEnds n Regex.eol u = if u.isEmpty then [u] else [] from rfl,
          if_neg h] at hmem
        cases hmem
    subst hu0
    obtain ⟨pre, hpre, hall⟩ := starIter_cls_sound n s.length s [] hu
    rw [hpre, List.append_nil]
    exact hall
  · intro h
    refine ⟨[[]], ⟨[], starIter_cls_complete n s h, rfl⟩, List.mem_singleton.mpr rfl⟩

/-- Skipping a matching literal at the front of a concatenation. -/
theorem matchEnds_seq_lit_same (n : Nat) (c : Char) (X : Regex) (s : List Char) :
    matchEnds n (.seq (.lit c) X) (c :: s) = matchEnds n X s := by
  rw [matchEnds_seq, matchEnds_lit_cons]
  simp

/-- Skipping the wildcard dot at the front of a concatenation. -/
theorem matchEnds_seq_any (n : Nat) (X : Regex) (d : Char) (s : List Char)
    (h : ¬(d = '\n')) :
    matchEnds n (.seq .anyChar X) (d :: s) = matchEnds n X s := by
  rw [matchEnds_seq]
  rw [show matchEnds n .anyChar (d :: s) = if d = '\n' then [] else [s] from rfl,
    if_neg h]
  simp

/-- Full matches are exactly runs that consume the entire haystack. -/
theorem full_match_iff_mem (re : Regex) (s : List Char) :
    re.full_match s = true ↔ [] ∈ matchEnds s.length re s := by
  simp only [Regex.full_match, List.any_eq_true]
  constructor
  · rintro ⟨t, ht, hemp⟩
    rw [List.isEmpty_iff.mp hemp] at ht
    exact ht
  · intro h
    exact ⟨[], h, rfl⟩

/-- Restricting a full match of `^ X` to `X`. -/
theorem mem_seq_bol_full (X : Regex) (s : List Char) :
    ([] ∈ matchEnds s.length (.seq .bol X) s) ↔ [] ∈ matchEnds s.length X s := by
  constructor
  · intro h
    exact (matchEnds_seq_bol _ _ _ _ h).2
  · intro h
    rw [matchEnds_seq]
    simp only [List.mem_flatten, List.mem_map]
    refine ⟨_, ⟨s, ?_, rfl⟩, h⟩
    rw [matchEnds_bol]
    simp

/-! ## Claim C1: what a placeholder wildcard matches -/

/-- Counterexample to C1 as stated: `VALID_SEQUENCE` is `.[a-zA-Z0-9_-]*`,
whose leading `.` matches any character except a newline — including `/`.
The matcher compiled from `/foo/:userid` therefore accepts `/foo//abc`,
which the claim says it rejects. -/
theorem c1_counterexample :
    (create_regex "/foo/:userid").map
      (fun re => re.is_match "/foo//abc".data) = some true := by
  decide

/-- Claim C1 (amended): the wildcard substituted for a placeholder matches
one arbitrary character (anything but a newline — in particular `/` is
allowed, so a variable segment can cross a path level) followed by zero or
more characters from the bounded class: the matcher of `/foo/:userid`
accepts `/foo/` ++ `seg` exactly when `seg` is nonempty, its first character
is not a newline, and all its remaining characters are letters, digits,
underscore or hyphen. -/
theorem c1_placeholder_amended (re : Regex) (seg : List Char)
    (hre : create_regex "/foo/:userid" = some re) :
    re.is_match ("/foo/".data ++ seg) = true ↔
      (∃ c rest, seg = c :: rest ∧ ¬(c = '\n') ∧ rest.all classChar = true) := by
  have hR : create_regex "/foo/:userid" =
      some (.seq .bol (.seq (.lit '/') (.seq (.lit 'f') (.seq (.lit 'o') (.seq (.lit 'o')
        (.seq (.lit '/') (.seq .anyChar
          (.seq (.star (.cls false CLS_ITEMS)) .eol)))))))) := by
    decide
  rw [hR] at hre
  have hre2 := (Option.some_inj.mp hre).symm
  subst hre2
  rw [is_match_iff_full_match _ (by rfl) ("/foo/".data ++ seg),
    full_match_iff_mem, mem_seq_bol_full]
  rw [show ("/foo/".data ++ seg) = '/' :: 'f' :: 'o' :: 'o' :: '/' :: seg from rfl]
  rw [matchEnds_seq_lit_same, matchEnds_seq_lit_same, matchEnds_seq_lit_same,
    matchEnds_seq_lit_same, matchEnds_seq_lit_same]
  cases seg with
  | nil =>
    rw [show matchEnds ('/' :: 'f' :: 'o' :: 'o' :: '/' :: ([] : List Char)).length
        (.seq .anyChar (.seq (.star (.cls false CLS_ITEMS)) .eol)) [] = [] from rfl]
    simp
  | cons c rest =>
    by_cases hc : c = '\n'
    · subst hc
      rw [show matchEnds ('/' :: 'f' :: 'o' :: 'o' :: '/' :: '\n' :: rest).length
          (.seq .anyChar (.seq (.star (.cls false CLS_ITEMS)) .eol)) ('\n' :: rest) = []
          from rfl]
      simp
    · rw [matchEnds_seq_any _ _ _ _ hc, starcls_eol_mem]
      constructor
      · intro h
        exact ⟨c, rest, rfl, hc, h⟩
      · rintro ⟨c2, rest2, heq, _, hall⟩
        obtain ⟨rfl, rfl⟩ : c2 = c ∧ rest2 = rest := by
          constructor <;> [exact (List.cons.injEq _ _ _ _ ▸ heq).1.symm;
            exact (List.cons.injEq _ _ _ _ ▸ heq).2.symm]
        exact hall

/-- Witness for C1 (amended) at the segment `/abc`: nonempty, first character
`/`, remaining characters in the class — so `/foo//abc` is accepted. -/
theorem c1_placeholder_amended_witness :
    ((create_regex "/foo/:userid").getD .eps).is_match
        ("/foo/".data ++ "/abc".data) = true ↔
      (∃ c rest, "/abc".data = c :: rest ∧ ¬(c = '\n') ∧
        rest.all classChar = true) :=
  c1_placeholder_amended ((create_regex "/foo/:userid").getD .eps) "/abc".data
    (by decide)

/-! ## Claim C2: anchoring of the compiled matcher -/

/-- Counterexample to C2 as stated: the compiled pattern for template `a|b`
is `^a|b$`, in which alternation binds loosest, so it reads `(^a)|(b$)`.
The matcher accepts the path `zzb` although the whole path does not match the
compiled expression (only the suffix `b` does) — the matcher is not anchored
at both ends for every template. -/
theorem c2_counterexample :
    (create_regex "a|b").map (fun re => re.is_match "zzb".data) = some true ∧
    (create_regex "a|b").map (fun re => re.full_match "zzb".data) = some false := by
  constructor
  · decide
  · decide

/-- Claim C2 (amended): for every template over the route-template alphabet
(no raw pattern metacharacters; `.` and `:` allowed), the compiled matcher is
anchored at both ends — it accepts a path exactly when the whole path matches
the compiled expression.  Templates containing raw metacharacters such as
`|` or `\\` can defeat the anchoring. -/
theorem c2_anchored_amended (tpl path : String) (re : Regex)
    (h : ∀ c ∈ tpl.data, tplChar c = true)
    (hre : create_regex tpl = some re) :
    re.is_match path.data = true ↔ re.full_match path.data = true := by
  rw [create_regex_of_tplChar tpl h] at hre
  have hre' : re = concatOf (.bol :: tplFactors false tpl.data ++ [.eol]) :=
    (Option.some_inj.mp hre).symm
  subst hre'
  have hsh : concatOf (.bol :: tplFactors false tpl.data ++ [.eol]) =
      .seq .bol (concatOf (tplFactors false tpl.data ++ [.eol])) := by
    cases hL : tplFactors false tpl.data ++ [Regex.eol] with
    | nil => exact absurd hL (by simp)
    | cons x xs => rw [List.cons_append, hL]; rfl
  rw [hsh]
  exact is_match_iff_full_match _ (endsEol_concatOf_append_eol _) path.data

/-- Witness for C2 (amended) at template `/foo` and path `/foo/bar`: search
equals whole-path match there, and indeed the matcher rejects `/foo/bar`. -/
theorem c2_anchored_amended_witness :
    (((create_regex "/foo").getD .eps).is_match "/foo/bar".data = true ↔
      ((create_regex "/foo").getD .eps).full_match "/foo/bar".data = true) ∧
    ((create_regex "/foo").getD .eps).is_match "/foo/bar".data = false :=
  ⟨c2_anchored_amended "/foo" "/foo/bar" ((create_regex "/foo").getD .eps)
      (by decide) (by decide),
    by decide⟩

/-! ## Claim C4: totality and timing of compilation -/

/-- Counterexample to C4 as stated: the second failure branch of
`create_regex` is reachable — template `[` yields the pattern `^[$`, whose
character class is never closed, so pattern compilation fails (in the source:
`fail!`, a panic).  Registration of that template fails too. -/
theorem c4_counterexample :
    create_regex "[" = none ∧ (Router.new (H := Nat)).add_route "[" 0 = none := by
  constructor
  · decide
  · rfl

/-- Claim C4 (amended): compilation is a pure function of the template and
succeeds for every template over the route-template alphabet; for a template
it cannot compile (such as `[`), the failure arises in `create_regex`, which
runs only inside `add_route` at registration time — `match_route` performs no
compilation and resolution is total. -/
theorem c4_compilation_amended :
    (∀ tpl : String, (∀ c ∈ tpl.data, tplChar c = true) →
      (create_regex tpl).isSome = true) ∧
    (∀ (r : Router Nat) (tpl : String) (h : Nat),
      (r.add_route tpl h = none ↔ create_regex tpl = none)) := by
  constructor
  · intro tpl h
    rw [create_regex_of_tplChar tpl h]
    rfl
  · intro r tpl h
    simp [Router.add_route]

/-- Witness for C4 (amended): the template `/foo/:userid` compiles, and for
template `[` registration fails exactly because compilation fails. -/
theorem c4_compilation_amended_witness :
    (create_regex "/foo/:userid").isSome = true ∧
    ((Router.new (H := Nat)).add_route "[" 0 = none ↔ create_regex "[" = none) :=
  ⟨c4_compilation_amended.1 "/foo/:userid" (by decide),
   c4_compilation_amended.2 Router.new "[" 0⟩

/-! ## Claim C5: registration order determines resolution precedence -/

/-- Claim C5: `match_route` scans the registered entries in insertion order
and returns the first entry whose matcher matches the path; in particular,
of two registered templates that both match, the one registered first wins. -/
theorem c5_match_route_insertion_order {H : Type} (pre post : List (Route H))
    (rt : Route H) (path : String)
    (hpre : ∀ r ∈ pre, r.matcher.is_match path.data = false)
    (hrt : rt.matcher.is_match path.data = true) :
    Router.match_route ⟨pre ++ rt :: post⟩ path = some rt :=
  find?_of_front_false _ pre post rt hpre hrt

/-- Witness for C5: routes `/foo/:userid` then `/foo/abc` both match the path
`/foo/abc`; resolution returns the first-registered route. -/
theorem c5_match_route_insertion_order_witness :
    Router.match_route
      (H := Nat)
      ⟨[⟨"/foo/:userid", 1, (create_regex "/foo/:userid").getD .eps⟩,
        ⟨"/foo/abc", 2, (create_regex "/foo/abc").getD .eps⟩]⟩ "/foo/abc" =
      some ⟨"/foo/:userid", 1, (create_regex "/foo/:userid").getD .eps⟩ ∧
    (⟨"/foo/abc", 2, (create_regex "/foo/abc").getD .eps⟩ :
        Route Nat).matcher.is_match "/foo/abc".data = true :=
  ⟨c5_match_route_insertion_order (H := Nat)
      [] [⟨"/foo/abc", 2, (create_regex "/foo/abc").getD .eps⟩]
      ⟨"/foo/:userid", 1, (create_regex "/foo/:userid").getD .eps⟩ "/foo/abc"
      (by intro r hr; cases hr) (by decide),
   by decide⟩

/-! ## Claim C6: resolution never fails -/

/-- Claim C6: `match_route` on an empty router returns `none` for every path,
and in general a path matched by no registered entry yields `none` — the
normal no-match outcome, not an error. -/
theorem c6_match_route_total (path : String) :
    (Router.new (H := Nat)).match_route path = none ∧
    ∀ (router : Router Nat),
      (∀ rt ∈ router.routes, rt.matcher.is_match path.data = false) →
      router.match_route path = none := by
  constructor
  · rfl
  · intro router h
    exact List.find?_eq_none.mpr (fun rt hrt => by simp [h rt hrt])

/-- Witness for C6 at a concrete path and a concrete non-matching router. -/
theorem c6_match_route_total_witness :
    (Router.new (H := Nat)).match_route "/zzz" = none ∧
    Router.match_route (H := Nat)
      ⟨[⟨"/bar", 7, (create_regex "/bar").getD .eps⟩]⟩ "/zzz" = none :=
  ⟨(c6_match_route_total "/zzz").1,
   (c6_match_route_total "/zzz").2 ⟨[⟨"/bar", 7, (create_regex "/bar").getD .eps⟩]⟩
      (by decide)⟩

/-! ## Claim C7: `NickelError::new` -/

/-- Claim C7: `NickelError::new` sets the given status code on the response
and performs the Fresh→Started transition; if the transition succeeds the
binding holds the started stream (carrying the set status) together with the
given message, and if it fails the returned binding is the one produced from
the transport failure itself, discarding the original message. -/
theorem c7_nickel_error_new (res : Response .Fresh) (msg : String)
    (code : StatusCode) :
    (res.startOutcome = none →
      NickelError.new res msg code =
        { stream := some ⟨code, res.startOutcome, res.endOutcome⟩, message := msg }) ∧
    (∀ d, res.startOutcome = some d →
      NickelError.new res msg code = { stream := none, message := d }) := by
  constructor
  · intro h
    simp [NickelError.new, Response.set, Response.start, h]
  · intro d h
    simp [NickelError.new, Response.set, Response.start, h]

/-- Witness for C7: a concrete successful transition and a concrete failing
one. -/
theorem c7_nickel_error_new_witness :
    NickelError.new ⟨.NotFound, none, .ok ()⟩ "boom" .BadRequest =
      { stream := some ⟨.BadRequest, none, .ok ()⟩, message := "boom" } ∧
    NickelError.new ⟨.NotFound, some "broken pipe", .ok ()⟩ "boom" .BadRequest =
      { stream := none, message := "broken pipe" } :=
  ⟨(c7_nickel_error_new ⟨.NotFound, none, .ok ()⟩ "boom" .BadRequest).1 rfl,
   (c7_nickel_error_new ⟨.NotFound, some "broken pipe", .ok ()⟩ "boom" .BadRequest).2
      "broken pipe" rfl⟩

/-! ## Claim C8: `NickelError::end` -/

/-- Claim C8: finalization is decided by stream presence — with a stream,
`end` terminates it and returns `some` of the termination outcome; a binding
built by `without_response` has no stream and `end` returns `none` without
touching any connection.  (That `end` consumes the binding — `self` by value,
so it cannot be called twice — is enforced by Rust's move semantics at the
type level and has no counterpart to check in this embedding.) -/
theorem c8_nickel_error_end (b : NickelError) (msg : String) :
    (∀ s, b.stream = some s → b.«end» = some (s.«end»)) ∧
    (b.stream = none → b.«end» = none) ∧
    (NickelError.without_response msg).«end» = none := by
  refine ⟨fun s hs => ?_, fun h => ?_, rfl⟩
  · simp [NickelError.«end», hs]
  · simp [NickelError.«end», h]

/-- Witness for C8 at a concrete binding with a stream. -/
theorem c8_nickel_error_end_witness :
    NickelError.«end» ⟨some ⟨.BadRequest, none, .ok ()⟩, "boom"⟩ = some (.ok ()) ∧
    NickelError.«end» (NickelError.without_response "boom") = none :=
  ⟨(c8_nickel_error_end ⟨some ⟨.BadRequest, none, .ok ()⟩, "boom"⟩ "boom").1
      ⟨.BadRequest, none, .ok ()⟩ rfl,
   (c8_nickel_error_end (NickelError.without_response "boom") "boom").2.2⟩

/-! ## Claim C9: the three `From` conversions -/

/-- Claim C9: converting from (response, statusCode) gives an empty message
and that status; from (response, message) gives that message and
`InternalServerError`; from (response, statusCode, error) gives the error's
textual description; and each conversion performs the Fresh→Started
transition (here: the successful transition leaves the started stream, with
the status set, in the binding). -/
theorem c9_from_conversions (res : Response .Fresh) (code : StatusCode)
    (msg : String) (err : BoxedError) (h : res.startOutcome = none) :
    NickelError.from_status res code =
      { stream := some ⟨code, res.startOutcome, res.endOutcome⟩, message := "" } ∧
    NickelError.from_string res msg =
      { stream := some ⟨.InternalServerError, res.startOutcome, res.endOutcome⟩,
        message := msg } ∧
    NickelError.from_status_err res code err =
      { stream := some ⟨code, res.startOutcome, res.endOutcome⟩,
        message := err.description } := by
  refine ⟨?_, ?_, ?_⟩ <;>
    simp [NickelError.from_status, NickelError.from_string, NickelError.from_status_err,
      NickelError.new, Response.set, Response.start, h]

/-- Witness for C9 at a concrete fresh response. -/
theorem c9_from_conversions_witness :
    NickelError.from_status ⟨.NotFound, none, .ok ()⟩ .BadRequest =
      { stream := some ⟨.BadRequest, none, .ok ()⟩, message := "" } ∧
    NickelError.from_string ⟨.NotFound, none, .ok ()⟩ "oops" =
      { stream := some ⟨.InternalServerError, none, .ok ()⟩, message := "oops" } ∧
    NickelError.from_status_err ⟨.NotFound, none, .ok ()⟩ .BadRequest ⟨"bad json"⟩ =
      { stream := some ⟨.BadRequest, none, .ok ()⟩, message := "bad json" } :=
  c9_from_conversions ⟨.NotFound, none, .ok ()⟩ .BadRequest "oops" ⟨"bad json"⟩ rfl

/-! ## Claim C10: a bare colon is a placeholder -/

/-- Claim C10: the placeholder-recognition pattern also matches a bare `:`
with an empty name, so a lone `:` is replaced by the same wildcard
sub-pattern as a named placeholder rather than being kept as a literal. -/
theorem c10_bare_colon_placeholder (pre name post : List Char)
    (hpre : ':' ∉ pre)
    (hname : ∀ c ∈ name, classChar c = true)
    (hpost : ∀ c, post.head? = some c → classChar c = false) :
    create_regex_src (pre ++ ':' :: post) =
      REGEX_START ++ (pre ++ VALID_SEQUENCE ++ replaceRun false post) ++ REGEX_END ∧
    create_regex_src (pre ++ ':' :: post) =
      create_regex_src (pre ++ ':' :: (name ++ post)) := by
  have hbare : replaceRun false (pre ++ ':' :: post) =
      pre ++ VALID_SEQUENCE ++ replaceRun true post :=
    replaceRun_false_split pre post hpre
  have htf : replaceRun true post = replaceRun false post :=
    replaceRun_true_eq_false post hpost
  constructor
  · simp [create_regex_src, hbare, htf]
  · simp [create_regex_src, hbare, replaceRun_false_split pre (name ++ post) hpre,
      replaceRun_true_drop name post hname]

/-- Witness for C10: in template `/a/:/b` the lone `:` compiles exactly like
the named placeholder in `/a/:x/b`. -/
theorem c10_bare_colon_placeholder_witness :
    create_regex_src ("/a/".data ++ ':' :: "/b".data) =
      REGEX_START ++ ("/a/".data ++ VALID_SEQUENCE ++ replaceRun false "/b".data) ++
        REGEX_END ∧
    create_regex_src ("/a/".data ++ ':' :: "/b".data) =
      create_regex_src ("/a/".data ++ ':' :: ("x".data ++ "/b".data)) :=
  c10_bare_colon_placeholder "/a/".data "x".data "/b".data
    (by decide) (by decide) (by decide)

end Nickel
